import Mathlib

/-!
Verification of the source_it module (src/src/source_it_module.rs).

The module embeds source files (path/content string pairs) in a binary and
extracts them at runtime to a timestamped directory, together with a
SOURCE_CHECKSUM.txt sidecar holding a 64-bit SipHash-1-3 checksum of the
ordered collection.

Shallow embedding conventions:
- Rust u64 arithmetic is modelled with Nat together with explicit reduction
  modulo 2 ^ 64 where wrap-around matters.
- The filesystem is modelled as an association list from absolute path
  strings to file contents; a write conses a new binding, and a read returns
  the most recent binding.  Directory creation has no observable effect in
  this model (the claims speak only about files), and I/O never fails, so
  the model captures the success path of the Rust code plus the two input
  validation errors, which in the source are returned before any I/O.
- The system clock is an explicit parameter: the value of
  SystemTime::now().duration_since(UNIX_EPOCH) as whole seconds, or none
  when reading the clock fails.
-/


/-- Mirrors struct SourcedFile (source_it_module.rs, lines 77-82): a relative
path string together with the file content embedded at compile time. -/
structure SourcedFile where
  path : String
  content : String
deriving DecidableEq, Repr

/-! ## Decimal and hexadecimal digit rendering

Rust format strings such as zero-padded decimal and the alternate lowercase
hex form are modelled with explicit digit lists (most significant first). -/

/-- Digits of a natural number in base b, most significant first, with
explicit fuel so that the definition is structurally recursive and hence
kernel-reducible.  Any fuel with n < b ^ (fuel + 1) yields the digits. -/
def digitsAux (b : Nat) : Nat → Nat → List Nat
  | 0, n => [n]
  | fuel + 1, n => if n < b then [n] else digitsAux b fuel (n / b) ++ [n % b]

/-- Decimal digits of a natural number, most significant first. -/
def decDigits (n : Nat) : List Nat := digitsAux 10 n n

/-- Hexadecimal digits of a natural number, most significant first. -/
def hexDigits (n : Nat) : List Nat := digitsAux 16 n n

/-- Character for one decimal digit. -/
def digitChar (d : Nat) : Char := Char.ofNat (48 + d)

/-- Character for one hexadecimal digit, lowercase letters for 10-15, as
produced by the Rust lowercase hex format. -/
def hexChar (d : Nat) : Char :=
  if d < 10 then Char.ofNat (48 + d) else Char.ofNat (87 + d)

/-- Zero-padded decimal rendering, as the Rust format specifier with a zero
flag and a minimum width renders an unsigned value. -/
def padNum (w n : Nat) : String :=
  String.mk (List.replicate (w - (decDigits n).length) '0' ++ (decDigits n).map digitChar)

/-! ## Timestamp generator (create_timestamp, lines 222-260)

The arithmetic below is copied from the source: an approximate calendar
computation from whole seconds since the Unix epoch, with the month and day
clamped by min. -/

/-- Year field of the timestamp (source line 232-233). -/
def tsYear (t : Nat) : Nat := 1970 + t / 86400 / 365

/-- Unclamped month field of the timestamp (source line 236). -/
def tsMonthRaw (t : Nat) : Nat := t / 86400 % 365 / 30 + 1

/-- Unclamped day field of the timestamp (source line 237). -/
def tsDayRaw (t : Nat) : Nat := t / 86400 % 365 % 30 + 1

/-- Hour field of the timestamp (source line 241). -/
def tsHour (t : Nat) : Nat := t % 86400 / 3600

/-- Minute field of the timestamp (source line 242). -/
def tsMin (t : Nat) : Nat := t % 86400 % 3600 / 60

/-- Second field of the timestamp (source line 243). -/
def tsSec (t : Nat) : Nat := t % 86400 % 60

/-- Mirrors create_timestamp (lines 222-260).  The argument is the clock
reading in whole seconds since the Unix epoch, or none when reading the
system clock fails, in which case the fixed sentinel string is returned. -/
def create_timestamp : Option Nat → String
  | some t =>
      padNum 4 (tsYear t) ++ padNum 2 (min (tsMonthRaw t) 12) ++
        padNum 2 (min (tsDayRaw t) 31) ++ "_" ++
        padNum 2 (tsHour t) ++ padNum 2 (tsMin t) ++ padNum 2 (tsSec t)
  | none => "00000000_000000"

/-- Rendering of the checksum by the Rust alternate zero-padded hex format
of width 16, as used in write_checksum_file (line 296): the prefix 0x
followed by the hex digits zero-padded on the left to at least 14 digits. -/
def rustHexAlt16 (n : Nat) : String :=
  "0x" ++ String.mk
    (List.replicate (14 - (hexDigits n).length) '0' ++ (hexDigits n).map hexChar)

/-- Content written by write_checksum_file (lines 292-302): one writeln of
a three-line literal with the formatted checksum interpolated, ending in a
newline. -/
def checksumFileContent (checksum : Nat) : String :=
  "Source extraction checksum: " ++ rustHexAlt16 checksum ++
    "\nThis file verifies the integrity of extracted source files.\nGenerated by source_it module.\n"

/-- Recognizer for lowercase hexadecimal digit characters. -/
def isLowerHexDigit (ch : Char) : Bool :=
  (48 ≤ ch.toNat && ch.toNat ≤ 57) || (97 ≤ ch.toNat && ch.toNat ≤ 102)

/-! ## Checksum engine (calculate_checksum, lines 279-289)

The source uses std DefaultHasher, which is SipHash-1-3 with both keys 0,
and hashes each path and content string through the str Hash instance,
which feeds the UTF-8 bytes of the string followed by a single 0xff
separator byte to the hasher.  The checksum is therefore SipHash-1-3 with
keys (0, 0) of the byte stream consisting of, for each file in order, the
path bytes, 0xff, the content bytes, 0xff.  u64 words are Nats kept below
2 ^ 64 by explicit reduction. -/

/-- UTF-8 encoding of one code point as in the Rust str byte representation,
with the bit operations of the standard encoder written through division
and remainder (v >> k is v / 2 ^ k and v & 63 is v % 64). -/
def utf8Bytes (v : Nat) : List Nat :=
  if v < 128 then [v]
  else if v < 2048 then [192 + v / 64, 128 + v % 64]
  else if v < 65536 then [224 + v / 4096, 128 + v / 64 % 64, 128 + v % 64]
  else [240 + v / 262144, 128 + v / 4096 % 64, 128 + v / 64 % 64, 128 + v % 64]

/-- UTF-8 byte list of a string, as returned by str as_bytes in Rust. -/
def strBytes (s : String) : List Nat :=
  (s.data.map (fun c => utf8Bytes c.toNat)).flatten

/-- Byte stream fed to the hasher when one str is hashed: its UTF-8 bytes
followed by the 0xff separator byte written by the str Hash instance. -/
def strHashBytes (s : String) : List Nat := strBytes s ++ [255]

/-- Byte stream fed to the hasher by calculate_checksum: for each file in
order, the path stream then the content stream (source lines 283-286). -/
def sipStream (files : List SourcedFile) : List Nat :=
  (files.map (fun f => strHashBytes f.path ++ strHashBytes f.content)).flatten

/-- Reduction modulo 2 ^ 64: the u64 wrap. -/
def wrap64 (x : Nat) : Nat := x % (2 ^ 64)

/-- u64 rotate left by n, for x < 2 ^ 64 and 0 < n < 64. -/
def rotl64 (x n : Nat) : Nat := wrap64 (x <<< n) ||| x >>> (64 - n)

/-- SipHash internal state of four u64 words. -/
structure SipState where
  v0 : Nat
  v1 : Nat
  v2 : Nat
  v3 : Nat

/-- One SipHash round (the SIPROUND permutation). -/
def sipRound (s : SipState) : SipState :=
  let w0 := wrap64 (s.v0 + s.v1)
  let w1 := rotl64 s.v1 13
  let x1 := w1 ^^^ w0
  let x0 := rotl64 w0 32
  let w2 := wrap64 (s.v2 + s.v3)
  let w3 := rotl64 s.v3 16
  let x3 := w3 ^^^ w2
  let y0 := wrap64 (x0 + x3)
  let y3 := rotl64 x3 21
  let z3 := y3 ^^^ y0
  let y2 := wrap64 (w2 + x1)
  let y1 := rotl64 x1 17
  let z1 := y1 ^^^ y2
  let z2 := rotl64 y2 32
  ⟨y0, z1, z2, z3⟩

/-- Initial DefaultHasher state: both SipHash keys are 0, so the four words
are the bare SipHash initialization constants. -/
def sipInit : SipState :=
  ⟨0x736f6d6570736575, 0x646f72616e646f6d, 0x6c7967656e657261, 0x7465646279746573⟩

/-- Little-endian value of a byte list, first byte least significant. -/
def le8 (bs : List Nat) : Nat := bs.foldr (fun b acc => b + 256 * acc) 0

/-- One message block: xor into v3, one compression round (the 1 of
SipHash-1-3), xor into v0. -/
def sipCompress (s : SipState) (m : Nat) : SipState :=
  let s1 : SipState := ⟨s.v0, s.v1, s.v2, s.v3 ^^^ m⟩
  let s2 := sipRound s1
  ⟨s2.v0 ^^^ m, s2.v1, s2.v2, s2.v3⟩

/-- Consume the whole 8-byte blocks of the message, returning the final
state and the remaining tail of fewer than 8 bytes. -/
def sipBlocks : SipState → List Nat → SipState × List Nat
  | s, b0 :: b1 :: b2 :: b3 :: b4 :: b5 :: b6 :: b7 :: rest =>
      sipBlocks (sipCompress s (le8 [b0, b1, b2, b3, b4, b5, b6, b7])) rest
  | s, rest => (s, rest)

/-- Finalization: the message length byte and the tail form the last block,
then the 0xff xor into v2 and three finalization rounds (the 3 of
SipHash-1-3), and the four words are folded by xor. -/
def sipFinish (s : SipState) (len : Nat) (tail : List Nat) : Nat :=
  let b := (len % 256) <<< 56 ||| le8 tail
  let s1 : SipState := ⟨s.v0, s.v1, s.v2, s.v3 ^^^ b⟩
  let s2 := sipRound s1
  let s3 : SipState := ⟨s2.v0 ^^^ b, s2.v1, s2.v2 ^^^ 255, s2.v3⟩
  let s4 := sipRound (sipRound (sipRound s3))
  wrap64 (s4.v0 ^^^ s4.v1 ^^^ s4.v2 ^^^ s4.v3)

/-- SipHash-1-3 with both keys 0, applied to a byte stream. -/
def sipHash13 (msg : List Nat) : Nat :=
  let r := sipBlocks sipInit msg
  sipFinish r.1 msg.length r.2

/-- Mirrors calculate_checksum (lines 279-289): a fresh DefaultHasher fed
the path and content of each file in order, then finished. -/
def calculate_checksum (files : List SourcedFile) : Nat :=
  sipHash13 (sipStream files)

/-! ## Filesystem model and the extraction orchestrator -/

/-- Filesystem model: an association list from absolute path strings to
file contents.  A write conses a new binding and a read returns the most
recent binding, giving later writes overwrite semantics. -/
abbrev FileSystem := List (String × String)

/-- Write one file, shadowing any earlier binding at the same path. -/
def writeFile (fs : FileSystem) (p c : String) : FileSystem := (p, c) :: fs

/-- Read a file: the most recent write at the path, if any. -/
def readFile : FileSystem → String → Option String
  | [], _ => none
  | (q, c) :: fs, p => if p = q then some c else readFile fs p

/-- Models Path::join for the relative embedded paths: base, separator,
relative path. -/
def joinPath (base rel : String) : String := base ++ "/" ++ rel

/-- Mirrors extract_file (lines 263-276): parent directory creation has no
observable effect on the file map, and the content bytes are written at
base_path/path. -/
def extract_file (fs : FileSystem) (base_path : String) (f : SourcedFile) : FileSystem :=
  writeFile fs (joinPath base_path f.path) f.content

/-- Mirrors write_checksum_file (lines 292-302): writes the sidecar text
for the given checksum at the given path. -/
def write_checksum_file (fs : FileSystem) (path : String) (checksum : Nat) : FileSystem :=
  writeFile fs path (checksumFileContent checksum)

/-- Mirrors handle_sourceit_command (lines 130-219) over the filesystem
model.  base_path stands for the resolved base directory (the current
working directory, or the canonicalized optional output path) and
timestamp for the create_timestamp output; both are environment inputs of
the Rust function.  The result is the filesystem after the call together
with the error message or the extraction directory path.  In this model
file and directory writes cannot fail and final canonicalization is the
identity, so the remaining error paths are the two input validations,
which the source checks before any filesystem interaction. -/
def handle_sourceit_command (crate_name : String) (files : List SourcedFile)
    (base_path timestamp : String) (fs : FileSystem) :
    FileSystem × Except String String :=
  if crate_name = "" then
    (fs, Except.error "Crate name cannot be empty")
  else if files = [] then
    (fs, Except.error "No source files provided for extraction")
  else
    let extraction_path := joinPath base_path ("source_crate_" ++ crate_name ++ "_" ++ timestamp)
    let checksum := calculate_checksum files
    let fs1 := files.foldl (fun acc f => extract_file acc extraction_path f) fs
    let fs2 := write_checksum_file fs1 (joinPath extraction_path "SOURCE_CHECKSUM.txt") checksum
    (fs2, Except.ok extraction_path)

/-- Kind of verification mismatch.  An unreadable-file discrepancy cannot
arise in the filesystem model, where every present file is readable. -/
inductive MismatchKind where
  | missing
  | contentDivergence
deriving DecidableEq, Repr

/-- One verification mismatch record: the relative path of the file and the
kind of discrepancy. -/
structure Mismatch where
  path : String
  kind : MismatchKind
deriving DecidableEq, Repr

/-- Modelled from the spec: the Verifier (spec section 4.5) is exercised by
the crate documentation under the name verify_extracted_files_content but
its definition is not part of the repository sources.  Per the spec, for
each file of the collection it re-reads extraction_path/path and compares
byte-for-byte with the embedded content, producing one mismatch record per
missing or divergent file; the empty collection signals success. -/
def verify_extracted_files_content (fs : FileSystem) (dir : String)
    (files : List SourcedFile) : List Mismatch :=
  files.filterMap fun f =>
    match readFile fs (joinPath dir f.path) with
    | none => some (Mismatch.mk f.path MismatchKind.missing)
    | some c => if c = f.content then none else some ⟨f.path, MismatchKind.contentDivergence⟩

/-! ## Theorems -/

theorem digitsAux_congr (b : Nat) (hb : 2 ≤ b) :
    ∀ f1 f2 n, n < b ^ (f1 + 1) → n < b ^ (f2 + 1) →
      digitsAux b f1 n = digitsAux b f2 n := by
  intro f1
  induction f1 with
  | zero =>
    intro f2 n h1 _h2
    have hnb : n < b := by simpa using h1
    cases f2 with
    | zero => rfl
    | succ g => simp [digitsAux, hnb]
  | succ j ihj =>
    intro f2 n h1 h2
    by_cases hnb : n < b
    · cases f2 with
      | zero => simp [digitsAux, hnb]
      | succ g => simp [digitsAux, hnb]
    · cases f2 with
      | zero =>
        exact absurd (by simpa using h2) hnb
      | succ g =>
        simp only [digitsAux, if_neg hnb]
        have hd1 : n / b < b ^ (j + 1) := by
          refine (Nat.div_lt_iff_lt_mul (by omega)).mpr ?_
          calc n < b ^ (j + 1 + 1) := h1
          _ = b ^ (j + 1) * b := by rw [pow_succ]
        have hd2 : n / b < b ^ (g + 1) := by
          refine (Nat.div_lt_iff_lt_mul (by omega)).mpr ?_
          calc n < b ^ (g + 1 + 1) := h2
          _ = b ^ (g + 1) * b := by rw [pow_succ]
        rw [ihj g (n / b) hd1 hd2]

theorem lt_pow_self_of_two_le (b n : Nat) (hb : 2 ≤ b) : n < b ^ (n + 1) := by
  calc n < 2 ^ n := Nat.lt_two_pow n
  _ ≤ b ^ n := Nat.pow_le_pow_left hb n
  _ ≤ b ^ (n + 1) := Nat.pow_le_pow_right (by omega) (by omega)

theorem digits_unfold (b n : Nat) (hb : 2 ≤ b) :
    digitsAux b n n = if n < b then [n]
      else digitsAux b (n / b) (n / b) ++ [n % b] := by
  by_cases hnb : n < b
  · cases n with
    | zero => simp [digitsAux, hnb]
    | succ m => simp [digitsAux, hnb]
  · have hn : 1 ≤ n := by omega
    rw [if_neg hnb]
    obtain ⟨m, rfl⟩ : ∃ m, n = m + 1 := ⟨n - 1, by omega⟩
    simp only [digitsAux, if_neg hnb]
    congr 1
    refine digitsAux_congr b hb m ((m + 1) / b) ((m + 1) / b) ?_ ?_
    · calc (m + 1) / b < m + 1 := Nat.div_lt_self (by omega) (by omega)
      _ < 2 ^ (m + 1) := Nat.lt_two_pow (m + 1)
      _ ≤ b ^ (m + 1) := Nat.pow_le_pow_left hb (m + 1)
    · exact lt_pow_self_of_two_le b ((m + 1) / b) hb

theorem decDigits_eq (n : Nat) :
    decDigits n = if n < 10 then [n] else decDigits (n / 10) ++ [n % 10] :=
  digits_unfold 10 n (by omega)

theorem hexDigits_eq (n : Nat) :
    hexDigits n = if n < 16 then [n] else hexDigits (n / 16) ++ [n % 16] :=
  digits_unfold 16 n (by omega)

/-! ## Digit-list lemmas -/

theorem decDigits_lt_ten : ∀ n d, d ∈ decDigits n → d < 10 := by
  intro n
  induction n using Nat.strong_induction_on with
  | _ n ih =>
    intro d hd
    rw [decDigits_eq] at hd
    split at hd
    · simp only [List.mem_singleton] at hd
      omega
    · rcases List.mem_append.mp hd with h1 | h2
      · exact ih (n / 10) (Nat.div_lt_self (by omega) (by omega)) d h1
      · simp only [List.mem_singleton] at h2
        omega

theorem decDigits_length_le : ∀ k n, n < 10 ^ (k + 1) → (decDigits n).length ≤ k + 1 := by
  intro k
  induction k with
  | zero =>
    intro n hn
    rw [decDigits_eq]
    split
    · simp
    · omega
  | succ j ihj =>
    intro n hn
    rw [decDigits_eq]
    split
    · simp
    · have h2 : n / 10 < 10 ^ (j + 1) := by
        refine (Nat.div_lt_iff_lt_mul (by omega)).mpr ?_
        calc n < 10 ^ (j + 1 + 1) := hn
        _ = 10 ^ (j + 1) * 10 := by rw [pow_succ]
      have := ihj (n / 10) h2
      simp only [List.length_append, List.length_singleton]
      omega

theorem padNum_length (w n : Nat) (h : (decDigits n).length ≤ w) :
    (padNum w n).length = w := by
  show (List.replicate (w - (decDigits n).length) '0' ++ (decDigits n).map digitChar).length = w
  simp only [List.length_append, List.length_replicate, List.length_map]
  omega

theorem digitChar_ne_underscore (d : Nat) (hd : d < 10) : digitChar d ≠ '_' := by
  show Char.ofNat (48 + d) ≠ '_'
  interval_cases d <;> decide

theorem padNum_no_underscore (w n : Nat) : '_' ∉ (padNum w n).data := by
  intro hmem
  rcases List.mem_append.mp hmem with h | h
  · exact absurd (List.eq_of_mem_replicate h) (by decide)
  · rcases List.mem_map.mp h with ⟨d, hd, hEq⟩
    exact digitChar_ne_underscore d (decDigits_lt_ten n d hd) hEq

theorem padNum_count_underscore (w n : Nat) : (padNum w n).data.count '_' = 0 :=
  List.count_eq_zero.mpr (padNum_no_underscore w n)

/-! ## Claims C9 and C5: timestamp field ranges and shape -/

/-- C9: for every seconds-since-epoch value, the fields formatted into the
timestamp string by create_timestamp are in range: the clamped month lies in
1..12, the clamped day in 1..31, the hour in 0..23, and the minute and
second in 0..59.  The first conjunct ties the fields to the string. -/
theorem c9_timestamp_fields_in_range (t : Nat) :
    create_timestamp (some t) =
      padNum 4 (tsYear t) ++ padNum 2 (min (tsMonthRaw t) 12) ++
        padNum 2 (min (tsDayRaw t) 31) ++ "_" ++
        padNum 2 (tsHour t) ++ padNum 2 (tsMin t) ++ padNum 2 (tsSec t) ∧
    1 ≤ min (tsMonthRaw t) 12 ∧ min (tsMonthRaw t) 12 ≤ 12 ∧
    1 ≤ min (tsDayRaw t) 31 ∧ min (tsDayRaw t) 31 ≤ 31 ∧
    tsHour t ≤ 23 ∧ tsMin t ≤ 59 ∧ tsSec t ≤ 59 := by
  refine ⟨rfl, ?_, ?_, ?_, ?_, ?_, ?_, ?_⟩ <;>
    simp only [tsMonthRaw, tsDayRaw, tsHour, tsMin, tsSec] <;> omega

/-- C5 (amended): for every clock reading below 253234080000 seconds (the
first reading whose approximate year field reaches 10000), the timestamp
string is exactly 15 characters with exactly one separator character,
located at position 8; the clock-failure fallback string has the same
shape.  For larger readings the year field grows past four digits. -/
theorem c5_timestamp_shape (t : Nat) (h : t < 253234080000) :
    (create_timestamp (some t)).length = 15 ∧
    (create_timestamp (some t)).data.count '_' = 1 ∧
    (create_timestamp (some t)).data[8]? = some '_' ∧
    (create_timestamp none).length = 15 ∧
    (create_timestamp none).data.count '_' = 1 ∧
    (create_timestamp none).data[8]? = some '_' := by
  have hy : (decDigits (tsYear t)).length ≤ 4 :=
    decDigits_length_le 3 _ (by simp only [tsYear]; omega)
  have hmo : (decDigits (min (tsMonthRaw t) 12)).length ≤ 2 :=
    decDigits_length_le 1 _ (by simp only [tsMonthRaw]; omega)
  have hd : (decDigits (min (tsDayRaw t) 31)).length ≤ 2 :=
    decDigits_length_le 1 _ (by simp only [tsDayRaw]; omega)
  have hh : (decDigits (tsHour t)).length ≤ 2 :=
    decDigits_length_le 1 _ (by simp only [tsHour]; omega)
  have hmi : (decDigits (tsMin t)).length ≤ 2 :=
    decDigits_length_le 1 _ (by simp only [tsMin]; omega)
  have hs : (decDigits (tsSec t)).length ≤ 2 :=
    decDigits_length_le 1 _ (by simp only [tsSec]; omega)
  have l1 := padNum_length 4 (tsYear t) hy
  have l2 := padNum_length 2 (min (tsMonthRaw t) 12) hmo
  have l3 := padNum_length 2 (min (tsDayRaw t) 31) hd
  have l4 := padNum_length 2 (tsHour t) hh
  have l5 := padNum_length 2 (tsMin t) hmi
  have l6 := padNum_length 2 (tsSec t) hs
  have lu : ("_" : String).length = 1 := rfl
  have hpre : (padNum 4 (tsYear t) ++ padNum 2 (min (tsMonthRaw t) 12) ++
      padNum 2 (min (tsDayRaw t) 31)).data.length = 8 := by
    show (padNum 4 (tsYear t) ++ padNum 2 (min (tsMonthRaw t) 12) ++
      padNum 2 (min (tsDayRaw t) 31)).length = 8
    simp only [String.length_append, l1, l2, l3]
  have hassoc : create_timestamp (some t) =
      (padNum 4 (tsYear t) ++ padNum 2 (min (tsMonthRaw t) 12) ++
        padNum 2 (min (tsDayRaw t) 31)) ++
      ("_" ++ (padNum 2 (tsHour t) ++ padNum 2 (tsMin t) ++ padNum 2 (tsSec t))) := by
    show padNum 4 (tsYear t) ++ padNum 2 (min (tsMonthRaw t) 12) ++
        padNum 2 (min (tsDayRaw t) 31) ++ "_" ++
        padNum 2 (tsHour t) ++ padNum 2 (tsMin t) ++ padNum 2 (tsSec t) = _
    simp only [String.append_assoc]
  refine ⟨?_, ?_, ?_, by decide, by decide, by decide⟩
  · show (padNum 4 (tsYear t) ++ padNum 2 (min (tsMonthRaw t) 12) ++
      padNum 2 (min (tsDayRaw t) 31) ++ "_" ++ padNum 2 (tsHour t) ++
      padNum 2 (tsMin t) ++ padNum 2 (tsSec t)).length = 15
    simp only [String.length_append, l1, l2, l3, l4, l5, l6, lu]
  · show (padNum 4 (tsYear t) ++ padNum 2 (min (tsMonthRaw t) 12) ++
      padNum 2 (min (tsDayRaw t) 31) ++ "_" ++ padNum 2 (tsHour t) ++
      padNum 2 (tsMin t) ++ padNum 2 (tsSec t)).data.count '_' = 1
    simp only [String.data_append, List.count_append, padNum_count_underscore]
    decide
  · rw [hassoc, String.data_append]
    rw [List.getElem?_append_right hpre.le, hpre]
    rw [String.data_append, show ("_" : String).data = ['_'] from rfl,
      List.singleton_append, Nat.sub_self, List.getElem?_cons_zero]

/-- C5 counterexample: at the clock reading 253234080000 (approximate year
10000) the timestamp string has 16 characters, and position 8 does not hold
the separator. -/
theorem c5_counterexample :
    (create_timestamp (some 253234080000)).length ≠ 15 ∧
    (create_timestamp (some 253234080000)).data[8]? ≠ some '_' := by
  decide

/-- Witness instantiating c5_timestamp_shape at the clock reading 0. -/
theorem c5_timestamp_shape_witness :
    (0 : Nat) < 253234080000 ∧
    ((create_timestamp (some 0)).length = 15 ∧
     (create_timestamp (some 0)).data.count '_' = 1 ∧
     (create_timestamp (some 0)).data[8]? = some '_' ∧
     (create_timestamp none).length = 15 ∧
     (create_timestamp none).data.count '_' = 1 ∧
     (create_timestamp none).data[8]? = some '_') :=
  ⟨by decide, c5_timestamp_shape 0 (by decide)⟩

/-! ## Hexadecimal lemmas and the checksum sidecar text (write_checksum_file,
lines 292-302)

The Rust format specifier used for the checksum is the alternate, zero
padded hex form with minimum width 16.  In Rust the 0x prefix produced by
the alternate flag counts toward the width, and the zero padding is
inserted between the prefix and the digits, so the digit field has
max 14 (number of significant digits) characters, not 16. -/

theorem hexDigits_lt_sixteen : ∀ n d, d ∈ hexDigits n → d < 16 := by
  intro n
  induction n using Nat.strong_induction_on with
  | _ n ih =>
    intro d hd
    rw [hexDigits_eq] at hd
    split at hd
    · simp only [List.mem_singleton] at hd
      omega
    · rcases List.mem_append.mp hd with h1 | h2
      · exact ih (n / 16) (Nat.div_lt_self (by omega) (by omega)) d h1
      · simp only [List.mem_singleton] at h2
        omega

theorem hexDigits_length_le : ∀ k n, n < 16 ^ (k + 1) → (hexDigits n).length ≤ k + 1 := by
  intro k
  induction k with
  | zero =>
    intro n hn
    rw [hexDigits_eq]
    split
    · simp
    · omega
  | succ j ihj =>
    intro n hn
    rw [hexDigits_eq]
    split
    · simp
    · have h2 : n / 16 < 16 ^ (j + 1) := by
        refine (Nat.div_lt_iff_lt_mul (by omega)).mpr ?_
        calc n < 16 ^ (j + 1 + 1) := hn
        _ = 16 ^ (j + 1) * 16 := by rw [pow_succ]
      have := ihj (n / 16) h2
      simp only [List.length_append, List.length_singleton]
      omega

theorem hexChar_isLowerHex (d : Nat) (hd : d < 16) :
    isLowerHexDigit (hexChar d) = true := by
  interval_cases d <;> decide

/-- C3 (amended): for every 64-bit checksum value the sidecar content is the
checksum line followed by the two fixed explanatory lines, where the hex
field after the 0x prefix consists of 14 to 16 lowercase hexadecimal
digits, zero-padded so that the 0x token has total width at least 16; for
checksums below 2 ^ 56 the field is exactly 14 digits, not 16. -/
theorem c3_checksum_file_shape (c : Nat) (h : c < 2 ^ 64) :
    ∃ hx : String,
      checksumFileContent c = "Source extraction checksum: 0x" ++ hx ++
        "\nThis file verifies the integrity of extracted source files.\nGenerated by source_it module.\n" ∧
      14 ≤ hx.length ∧ hx.length ≤ 16 ∧ (c < 2 ^ 56 → hx.length = 14) ∧
      ∀ ch ∈ hx.data, isLowerHexDigit ch = true := by
  have hlen : (hexDigits c).length ≤ 16 :=
    hexDigits_length_le 15 c (by norm_num at h ⊢; omega)
  refine ⟨String.mk (List.replicate (14 - (hexDigits c).length) '0' ++
    (hexDigits c).map hexChar), ?_, ?_, ?_, ?_, ?_⟩
  · show "Source extraction checksum: " ++ ("0x" ++ _) ++ _ = _
    rw [← String.append_assoc "Source extraction checksum: " "0x",
      show ("Source extraction checksum: " ++ "0x" : String) =
        "Source extraction checksum: 0x" from by decide]
  · show 14 ≤ (List.replicate (14 - (hexDigits c).length) '0' ++
      (hexDigits c).map hexChar).length
    simp only [List.length_append, List.length_replicate, List.length_map]
    omega
  · show (List.replicate (14 - (hexDigits c).length) '0' ++
      (hexDigits c).map hexChar).length ≤ 16
    simp only [List.length_append, List.length_replicate, List.length_map]
    omega
  · intro h56
    have hlen14 : (hexDigits c).length ≤ 14 :=
      hexDigits_length_le 13 c (by norm_num at h56 ⊢; omega)
    show (List.replicate (14 - (hexDigits c).length) '0' ++
      (hexDigits c).map hexChar).length = 14
    simp only [List.length_append, List.length_replicate, List.length_map]
    omega
  · intro ch hch
    rcases List.mem_append.mp hch with h1 | h1
    · rw [List.eq_of_mem_replicate h1]
      decide
    · rcases List.mem_map.mp h1 with ⟨d, hd, hEq⟩
      rw [← hEq]
      exact hexChar_isLowerHex d (hexDigits_lt_sixteen c d hd)

/-- C3 counterexample: at checksum value 0 the first line carries exactly 14
hex digits after the 0x prefix (first line length 44, not the 46 required
by a 16-digit field), so the claimed 16-digit rendering fails. -/
theorem c3_counterexample :
    checksumFileContent 0 =
      "Source extraction checksum: 0x00000000000000\nThis file verifies the integrity of extracted source files.\nGenerated by source_it module.\n" ∧
    ((checksumFileContent 0).data.takeWhile (fun ch => ch ≠ '\n')).length = 44 := by
  constructor
  · decide
  · decide

/-- Witness instantiating c3_checksum_file_shape at checksum value 0. -/
theorem c3_checksum_file_shape_witness :
    (0 : Nat) < 2 ^ 64 ∧
    (∃ hx : String,
      checksumFileContent 0 = "Source extraction checksum: 0x" ++ hx ++
        "\nThis file verifies the integrity of extracted source files.\nGenerated by source_it module.\n" ∧
      14 ≤ hx.length ∧ hx.length ≤ 16 ∧ ((0 : Nat) < 2 ^ 56 → hx.length = 14) ∧
      ∀ ch ∈ hx.data, isLowerHexDigit ch = true) :=
  ⟨by decide, c3_checksum_file_shape 0 (by decide)⟩

/-! ## Association-list filesystem lemmas -/

theorem readFile_append (l1 l2 : FileSystem) (q : String) :
    readFile (l1 ++ l2) q =
      match readFile l1 q with
      | some c => some c
      | none => readFile l2 q := by
  induction l1 with
  | nil => rfl
  | cons hd tl ih =>
    obtain ⟨p, c⟩ := hd
    by_cases hq : q = p
    · simp [readFile, hq]
    · simp [readFile, hq, ih]

theorem readFile_eq_none_iff (l : FileSystem) (q : String) :
    readFile l q = none ↔ q ∉ l.map Prod.fst := by
  induction l with
  | nil => simp [readFile]
  | cons hd tl ih =>
    obtain ⟨p, c⟩ := hd
    by_cases hq : q = p
    · simp [readFile, hq]
    · simp [readFile, hq, ih]

theorem readFile_isSome_of_mem_keys (l : FileSystem) (q : String)
    (h : q ∈ l.map Prod.fst) : ∃ c, readFile l q = some c := by
  cases hr : readFile l q with
  | some c => exact ⟨c, rfl⟩
  | none => exact absurd h ((readFile_eq_none_iff l q).mp hr)

theorem readFile_of_mem_of_nodup (l : FileSystem)
    (hnd : (l.map Prod.fst).Nodup) (p c : String) (h : (p, c) ∈ l) :
    readFile l p = some c := by
  induction l with
  | nil => simp at h
  | cons hd tl ih =>
    obtain ⟨p', c'⟩ := hd
    simp only [List.map_cons, List.nodup_cons] at hnd
    rcases List.mem_cons.mp h with heq | htl
    · obtain ⟨rfl, rfl⟩ := Prod.mk.injEq .. ▸ heq
      simp [readFile]
    · have hne : p ≠ p' := by
        intro hpp
        exact hnd.1 (hpp ▸ (List.mem_map.mpr ⟨(p, c), htl, rfl⟩))
      simp only [readFile, if_neg hne]
      exact ih hnd.2 htl

theorem joinPath_injective (base : String) : Function.Injective (joinPath base) := by
  intro a b h
  have hd := congrArg String.data h
  simp only [joinPath, String.data_append] at hd
  exact String.ext (List.append_cancel_left hd)

theorem extract_fold_eq (files : List SourcedFile) (ep : String) :
    ∀ fs : FileSystem,
      files.foldl (fun acc f => extract_file acc ep f) fs =
        (files.map (fun f => (joinPath ep f.path, f.content))).reverse ++ fs := by
  induction files with
  | nil => intro fs; rfl
  | cons f tl ih =>
    intro fs
    simp only [List.foldl_cons, List.map_cons, List.reverse_cons]
    rw [ih]
    simp [extract_file, writeFile]

/-! ## Extraction lemmas -/

theorem handle_success_eq (crate_name : String) (files : List SourcedFile)
    (base_path timestamp : String) (fs : FileSystem)
    (hn : crate_name ≠ "") (hne : files ≠ []) :
    handle_sourceit_command crate_name files base_path timestamp fs =
      ((joinPath (joinPath base_path ("source_crate_" ++ crate_name ++ "_" ++ timestamp))
          "SOURCE_CHECKSUM.txt",
        checksumFileContent (calculate_checksum files)) ::
        ((files.map (fun f =>
          (joinPath (joinPath base_path ("source_crate_" ++ crate_name ++ "_" ++ timestamp))
            f.path, f.content))).reverse ++ fs),
       Except.ok (joinPath base_path ("source_crate_" ++ crate_name ++ "_" ++ timestamp))) := by
  simp only [handle_sourceit_command, if_neg hn, if_neg hne, write_checksum_file, writeFile]
  rw [extract_fold_eq]

theorem pairs_keys_eq (files : List SourcedFile) (ep : String) :
    (files.map (fun f => (joinPath ep f.path, f.content))).map Prod.fst =
      (files.map (fun f => f.path)).map (joinPath ep) := by
  rw [List.map_map, List.map_map]
  rfl

theorem keys_reverse_nodup (l : FileSystem) (h : (l.map Prod.fst).Nodup) :
    (l.reverse.map Prod.fst).Nodup := by
  have heq : l.reverse.map Prod.fst = (l.map Prod.fst).reverse := by
    rw [List.map_reverse]
  rw [heq, List.nodup_reverse]
  exact h

theorem extraction_readback (crate_name : String) (files : List SourcedFile)
    (base_path timestamp : String) (fs : FileSystem)
    (hn : crate_name ≠ "") (hne : files ≠ [])
    (hnd : (files.map (fun f => f.path)).Nodup)
    (hsc : ∀ f ∈ files, f.path ≠ "SOURCE_CHECKSUM.txt") :
    (handle_sourceit_command crate_name files base_path timestamp fs).2 =
      Except.ok (joinPath base_path ("source_crate_" ++ crate_name ++ "_" ++ timestamp)) ∧
    ∀ f ∈ files,
      readFile (handle_sourceit_command crate_name files base_path timestamp fs).1
        (joinPath (joinPath base_path ("source_crate_" ++ crate_name ++ "_" ++ timestamp))
          f.path) = some f.content := by
  rw [handle_success_eq crate_name files base_path timestamp fs hn hne]
  refine ⟨rfl, ?_⟩
  intro f hf
  have hne2 : joinPath (joinPath base_path ("source_crate_" ++ crate_name ++ "_" ++ timestamp))
      f.path ≠
      joinPath (joinPath base_path ("source_crate_" ++ crate_name ++ "_" ++ timestamp))
      "SOURCE_CHECKSUM.txt" := by
    intro h
    exact hsc f hf (joinPath_injective _ h)
  simp only [readFile, if_neg hne2]
  rw [readFile_append]
  have hkeys : (((files.map (fun g =>
      (joinPath (joinPath base_path ("source_crate_" ++ crate_name ++ "_" ++ timestamp))
        g.path, g.content))).reverse).map Prod.fst).Nodup := by
    refine keys_reverse_nodup _ ?_
    rw [pairs_keys_eq]
    exact hnd.map (joinPath_injective _)
  have hmem : (joinPath (joinPath base_path ("source_crate_" ++ crate_name ++ "_" ++ timestamp))
      f.path, f.content) ∈
      (files.map (fun g =>
        (joinPath (joinPath base_path ("source_crate_" ++ crate_name ++ "_" ++ timestamp))
          g.path, g.content))).reverse := by
    rw [List.mem_reverse]
    exact List.mem_map.mpr ⟨f, hf, rfl⟩
  rw [readFile_of_mem_of_nodup _ hkeys _ _ hmem]

/-! ## Claims C7, C1, C8, C10 -/

/-- C7: handle_sourceit_command called with an empty identifier fails with
the empty-identifier message, and called with a non-empty identifier but an
empty file collection fails with the empty-file-set message; in both cases
the returned filesystem is the input filesystem, unchanged, as the checks
precede any filesystem interaction. -/
theorem c7_validation_errors (crate_name : String) (files : List SourcedFile)
    (base_path timestamp : String) (fs : FileSystem) (hn : crate_name ≠ "") :
    handle_sourceit_command "" files base_path timestamp fs =
      (fs, Except.error "Crate name cannot be empty") ∧
    handle_sourceit_command crate_name [] base_path timestamp fs =
      (fs, Except.error "No source files provided for extraction") := by
  constructor
  · rfl
  · simp [handle_sourceit_command, hn]

/-- Witness instantiating c7_validation_errors at concrete inputs. -/
theorem c7_validation_errors_witness :
    handle_sourceit_command "" [⟨"a", "b"⟩] "/base" "ts" [] =
      ([], Except.error "Crate name cannot be empty") ∧
    handle_sourceit_command "x" [] "/base" "ts" [] =
      ([], Except.error "No source files provided for extraction") :=
  c7_validation_errors "x" [⟨"a", "b"⟩] "/base" "ts" [] (by decide)

/-- C1 (amended): for a non-empty identifier and a non-empty collection
whose paths are pairwise distinct and none of which is the sidecar name
SOURCE_CHECKSUM.txt, extraction succeeds and reading back every file at
extraction_path/path yields exactly the embedded content. -/
theorem c1_extraction_roundtrip (crate_name : String) (files : List SourcedFile)
    (base_path timestamp : String) (fs : FileSystem)
    (hn : crate_name ≠ "") (hne : files ≠ [])
    (hnd : (files.map (fun f => f.path)).Nodup)
    (hsc : ∀ f ∈ files, f.path ≠ "SOURCE_CHECKSUM.txt") :
    ∃ ep, (handle_sourceit_command crate_name files base_path timestamp fs).2 =
        Except.ok ep ∧
      ∀ f ∈ files,
        readFile (handle_sourceit_command crate_name files base_path timestamp fs).1
          (joinPath ep f.path) = some f.content := by
  obtain ⟨h1, h2⟩ :=
    extraction_readback crate_name files base_path timestamp fs hn hne hnd hsc
  exact ⟨_, h1, h2⟩

/-- C1 counterexample: the read-back property fails as universally stated.
With the single file SOURCE_CHECKSUM.txt the extraction succeeds but the
sidecar overwrites the file, so reading it back does not yield the
embedded content; with two files sharing the path a the second write
shadows the first, so reading back the first file fails too. -/
theorem c1_counterexample :
    (handle_sourceit_command "x" [⟨"SOURCE_CHECKSUM.txt", "hello"⟩]
      "/base" "00000000_000000" []).2 =
      Except.ok "/base/source_crate_x_00000000_000000" ∧
    readFile (handle_sourceit_command "x" [⟨"SOURCE_CHECKSUM.txt", "hello"⟩]
        "/base" "00000000_000000" []).1
      (joinPath "/base/source_crate_x_00000000_000000" "SOURCE_CHECKSUM.txt") ≠
      some "hello" ∧
    (handle_sourceit_command "x" [⟨"a", "x1"⟩, ⟨"a", "x2"⟩]
      "/base" "00000000_000000" []).2 =
      Except.ok "/base/source_crate_x_00000000_000000" ∧
    readFile (handle_sourceit_command "x" [⟨"a", "x1"⟩, ⟨"a", "x2"⟩]
        "/base" "00000000_000000" []).1
      (joinPath "/base/source_crate_x_00000000_000000" "a") ≠ some "x1" := by
  refine ⟨rfl, by decide, rfl, by decide⟩

/-- Witness instantiating c1_extraction_roundtrip at the two-file scenario
of the spec. -/
theorem c1_extraction_roundtrip_witness :
    ∃ ep, (handle_sourceit_command "demo"
        [⟨"test1.txt", "Hello World"⟩, ⟨"subdir/test2.txt", "Nested content"⟩]
        "/tmp" "20250314_153045" []).2 = Except.ok ep ∧
      ∀ f ∈ [(⟨"test1.txt", "Hello World"⟩ : SourcedFile),
             ⟨"subdir/test2.txt", "Nested content"⟩],
        readFile (handle_sourceit_command "demo"
            [⟨"test1.txt", "Hello World"⟩, ⟨"subdir/test2.txt", "Nested content"⟩]
            "/tmp" "20250314_153045" []).1
          (joinPath ep f.path) = some f.content :=
  c1_extraction_roundtrip "demo"
    [⟨"test1.txt", "Hello World"⟩, ⟨"subdir/test2.txt", "Nested content"⟩]
    "/tmp" "20250314_153045" [] (by decide) (by decide) (by decide) (by decide)

/-- C8: after a successful extraction the paths written are exactly the
joined collection paths plus the sidecar: any path whose content changed
relative to the initial filesystem is in that set, and every path of the
set is present afterwards. -/
theorem c8_extraction_exact_file_set (crate_name : String) (files : List SourcedFile)
    (base_path timestamp : String) (fs : FileSystem)
    (hn : crate_name ≠ "") (hne : files ≠ []) :
    ∃ ep, (handle_sourceit_command crate_name files base_path timestamp fs).2 =
        Except.ok ep ∧
      (∀ q : String,
        readFile (handle_sourceit_command crate_name files base_path timestamp fs).1 q ≠
          readFile fs q →
        q ∈ joinPath ep "SOURCE_CHECKSUM.txt" ::
          files.map (fun f => joinPath ep f.path)) ∧
      (∀ q ∈ joinPath ep "SOURCE_CHECKSUM.txt" ::
          files.map (fun f => joinPath ep f.path),
        ∃ c, readFile
          (handle_sourceit_command crate_name files base_path timestamp fs).1 q = some c) := by
  rw [handle_success_eq crate_name files base_path timestamp fs hn hne]
  refine ⟨joinPath base_path ("source_crate_" ++ crate_name ++ "_" ++ timestamp), rfl, ?_, ?_⟩
  · intro q hq
    by_cases hqs : q = joinPath (joinPath base_path
        ("source_crate_" ++ crate_name ++ "_" ++ timestamp)) "SOURCE_CHECKSUM.txt"
    · exact List.mem_cons.mpr (Or.inl hqs)
    · refine List.mem_cons.mpr (Or.inr ?_)
      simp only [readFile, if_neg hqs] at hq
      rw [readFile_append] at hq
      cases hr : readFile ((files.map (fun f =>
          (joinPath (joinPath base_path ("source_crate_" ++ crate_name ++ "_" ++ timestamp))
            f.path, f.content))).reverse) q with
      | none => rw [hr] at hq; exact absurd rfl hq
      | some c =>
        have hkey : q ∈ ((files.map (fun f =>
            (joinPath (joinPath base_path ("source_crate_" ++ crate_name ++ "_" ++ timestamp))
              f.path, f.content))).reverse).map Prod.fst := by
          by_contra hq2
          rw [(readFile_eq_none_iff _ _).mpr hq2] at hr
          cases hr
        have heq : ((files.map (fun f =>
            (joinPath (joinPath base_path ("source_crate_" ++ crate_name ++ "_" ++ timestamp))
              f.path, f.content))).reverse).map Prod.fst =
            ((files.map (fun f =>
              (joinPath (joinPath base_path ("source_crate_" ++ crate_name ++ "_" ++ timestamp))
                f.path, f.content))).map Prod.fst).reverse := by
          rw [List.map_reverse]
        rw [heq, List.mem_reverse, pairs_keys_eq, List.map_map] at hkey
        exact hkey
  · intro q hq
    by_cases hqs : q = joinPath (joinPath base_path
        ("source_crate_" ++ crate_name ++ "_" ++ timestamp)) "SOURCE_CHECKSUM.txt"
    · subst hqs
      refine ⟨checksumFileContent (calculate_checksum files), ?_⟩
      simp [readFile]
    · have hq2 : q ∈ files.map (fun f => joinPath (joinPath base_path
          ("source_crate_" ++ crate_name ++ "_" ++ timestamp)) f.path) := by
        rcases List.mem_cons.mp hq with h | h
        · exact absurd h hqs
        · exact h
      have hkey : q ∈ ((files.map (fun f =>
          (joinPath (joinPath base_path ("source_crate_" ++ crate_name ++ "_" ++ timestamp))
            f.path, f.content))).reverse).map Prod.fst := by
        have heq : ((files.map (fun f =>
            (joinPath (joinPath base_path ("source_crate_" ++ crate_name ++ "_" ++ timestamp))
              f.path, f.content))).reverse).map Prod.fst =
            ((files.map (fun f =>
              (joinPath (joinPath base_path ("source_crate_" ++ crate_name ++ "_" ++ timestamp))
                f.path, f.content))).map Prod.fst).reverse := by
          rw [List.map_reverse]
        rw [heq, List.mem_reverse, pairs_keys_eq, List.map_map]
        exact hq2
      obtain ⟨c, hc⟩ := readFile_isSome_of_mem_keys _ _ hkey
      refine ⟨c, ?_⟩
      simp only [readFile, if_neg hqs]
      rw [readFile_append, hc]

/-- Witness instantiating c8_extraction_exact_file_set at a concrete
two-file extraction. -/
theorem c8_extraction_exact_file_set_witness :
    ∃ ep, (handle_sourceit_command "demo" [⟨"a.txt", "A"⟩, ⟨"d/b.txt", "B"⟩]
        "/tmp" "20250314_153045" [("/tmp/old.txt", "old")]).2 = Except.ok ep ∧
      (∀ q : String,
        readFile (handle_sourceit_command "demo" [⟨"a.txt", "A"⟩, ⟨"d/b.txt", "B"⟩]
          "/tmp" "20250314_153045" [("/tmp/old.txt", "old")]).1 q ≠
          readFile [("/tmp/old.txt", "old")] q →
        q ∈ joinPath ep "SOURCE_CHECKSUM.txt" ::
          [(⟨"a.txt", "A"⟩ : SourcedFile), ⟨"d/b.txt", "B"⟩].map (fun f => joinPath ep f.path)) ∧
      (∀ q ∈ joinPath ep "SOURCE_CHECKSUM.txt" ::
          [(⟨"a.txt", "A"⟩ : SourcedFile), ⟨"d/b.txt", "B"⟩].map (fun f => joinPath ep f.path),
        ∃ c, readFile (handle_sourceit_command "demo" [⟨"a.txt", "A"⟩, ⟨"d/b.txt", "B"⟩]
          "/tmp" "20250314_153045" [("/tmp/old.txt", "old")]).1 q = some c) :=
  c8_extraction_exact_file_set "demo" [⟨"a.txt", "A"⟩, ⟨"d/b.txt", "B"⟩]
    "/tmp" "20250314_153045" [("/tmp/old.txt", "old")] (by decide) (by decide)

/-- C10: if the collection contains a file whose path is the sidecar name
SOURCE_CHECKSUM.txt, extraction still succeeds and the sidecar path
afterwards holds the checksum artifact text, written after all file
materializations, rather than that file's embedded content. -/
theorem c10_sidecar_overwrites (crate_name : String) (files : List SourcedFile)
    (base_path timestamp : String) (fs : FileSystem) (c : String)
    (hn : crate_name ≠ "")
    (hc : (⟨"SOURCE_CHECKSUM.txt", c⟩ : SourcedFile) ∈ files) :
    ∃ ep, (handle_sourceit_command crate_name files base_path timestamp fs).2 =
        Except.ok ep ∧
      readFile (handle_sourceit_command crate_name files base_path timestamp fs).1
        (joinPath ep "SOURCE_CHECKSUM.txt") =
        some (checksumFileContent (calculate_checksum files)) ∧
      (c ≠ checksumFileContent (calculate_checksum files) →
        readFile (handle_sourceit_command crate_name files base_path timestamp fs).1
          (joinPath ep "SOURCE_CHECKSUM.txt") ≠ some c) := by
  have hne : files ≠ [] := List.ne_nil_of_mem hc
  rw [handle_success_eq crate_name files base_path timestamp fs hn hne]
  refine ⟨joinPath base_path ("source_crate_" ++ crate_name ++ "_" ++ timestamp), rfl, ?_, ?_⟩
  · simp [readFile]
  · intro hne2
    simp only [readFile, if_pos rfl]
    intro h
    exact hne2 (Option.some.injEq .. ▸ h).symm

/-- Witness instantiating c10_sidecar_overwrites at a concrete collection
embedding a file named SOURCE_CHECKSUM.txt. -/
theorem c10_sidecar_overwrites_witness :
    ∃ ep, (handle_sourceit_command "x" [⟨"SOURCE_CHECKSUM.txt", "hello"⟩]
        "/base" "00000000_000000" []).2 = Except.ok ep ∧
      readFile (handle_sourceit_command "x" [⟨"SOURCE_CHECKSUM.txt", "hello"⟩]
          "/base" "00000000_000000" []).1
        (joinPath ep "SOURCE_CHECKSUM.txt") =
        some (checksumFileContent (calculate_checksum [⟨"SOURCE_CHECKSUM.txt", "hello"⟩])) ∧
      ("hello" ≠ checksumFileContent (calculate_checksum [⟨"SOURCE_CHECKSUM.txt", "hello"⟩]) →
        readFile (handle_sourceit_command "x" [⟨"SOURCE_CHECKSUM.txt", "hello"⟩]
            "/base" "00000000_000000" []).1
          (joinPath ep "SOURCE_CHECKSUM.txt") ≠ some "hello") :=
  c10_sidecar_overwrites "x" [⟨"SOURCE_CHECKSUM.txt", "hello"⟩]
    "/base" "00000000_000000" [] "hello" (by decide) (by decide)

/-! ## Claim C4: the verifier -/

theorem filterMap_eq_singleton {α β : Type} (l : List α) (m : α → Option β)
    (a : α) (ha : a ∈ l) (hnd : l.Nodup) (x : β) (hx : m a = some x)
    (hother : ∀ b ∈ l, b ≠ a → m b = none) : l.filterMap m = [x] := by
  induction l with
  | nil => simp at ha
  | cons hd tl ih =>
    rcases List.mem_cons.mp ha with heq | hmem
    · subst heq
      have htl : tl.filterMap m = [] := by
        refine List.filterMap_eq_nil_iff.mpr ?_
        intro b hb
        refine hother b (List.mem_cons_of_mem _ hb) ?_
        intro hba
        exact (List.nodup_cons.mp hnd).1 (hba ▸ hb)
      simp only [List.filterMap_cons, hx, htl]
    · have hne : hd ≠ a := by
        intro h
        exact (List.nodup_cons.mp hnd).1 (h ▸ hmem)
      simp only [List.filterMap_cons, hother hd (List.mem_cons_self hd tl) hne]
      exact ih hmem (List.nodup_cons.mp hnd).2
        (fun b hb => hother b (List.mem_cons_of_mem _ hb))

/-- C4 (amended, spec-modelled verifier): after a successful extraction of
a collection with pairwise-distinct paths none of which is the sidecar
name, verification of the unmodified tree yields no mismatches, and after
externally overwriting exactly one extracted file with different content,
verification yields exactly one mismatch record naming that file's path. -/
theorem c4_verification (crate_name : String) (files : List SourcedFile)
    (base_path timestamp : String) (fs : FileSystem)
    (hn : crate_name ≠ "") (hne : files ≠ [])
    (hnd : (files.map (fun f => f.path)).Nodup)
    (hsc : ∀ f ∈ files, f.path ≠ "SOURCE_CHECKSUM.txt")
    (f0 : SourcedFile) (hf0 : f0 ∈ files) (newContent : String)
    (hnew : newContent ≠ f0.content) :
    ∃ ep, (handle_sourceit_command crate_name files base_path timestamp fs).2 =
        Except.ok ep ∧
      verify_extracted_files_content
        (handle_sourceit_command crate_name files base_path timestamp fs).1 ep files = [] ∧
      verify_extracted_files_content
        (writeFile (handle_sourceit_command crate_name files base_path timestamp fs).1
          (joinPath ep f0.path) newContent) ep files =
        [⟨f0.path, MismatchKind.contentDivergence⟩] := by
  obtain ⟨h1, h2⟩ :=
    extraction_readback crate_name files base_path timestamp fs hn hne hnd hsc
  refine ⟨_, h1, ?_, ?_⟩
  · refine List.filterMap_eq_nil_iff.mpr ?_
    intro f hf
    show (match readFile (handle_sourceit_command crate_name files base_path timestamp fs).1
        (joinPath (joinPath base_path ("source_crate_" ++ crate_name ++ "_" ++ timestamp))
          f.path) with
      | none => some (Mismatch.mk f.path MismatchKind.missing)
      | some c => if c = f.content then none
          else some (Mismatch.mk f.path MismatchKind.contentDivergence)) = none
    rw [h2 f hf]
    simp
  · refine filterMap_eq_singleton files _ f0 hf0 (List.Nodup.of_map _ hnd) _ ?_ ?_
    · show (match readFile (writeFile
          (handle_sourceit_command crate_name files base_path timestamp fs).1
          (joinPath (joinPath base_path ("source_crate_" ++ crate_name ++ "_" ++ timestamp))
            f0.path) newContent)
          (joinPath (joinPath base_path ("source_crate_" ++ crate_name ++ "_" ++ timestamp))
            f0.path) with
        | none => some (Mismatch.mk f0.path MismatchKind.missing)
        | some c => if c = f0.content then none
            else some (Mismatch.mk f0.path MismatchKind.contentDivergence)) =
        some (Mismatch.mk f0.path MismatchKind.contentDivergence)
      simp [writeFile, readFile, hnew]
    · intro g hg hgne
      have hpne : joinPath (joinPath base_path
          ("source_crate_" ++ crate_name ++ "_" ++ timestamp)) g.path ≠
          joinPath (joinPath base_path
          ("source_crate_" ++ crate_name ++ "_" ++ timestamp)) f0.path := by
        intro h
        exact hgne (List.inj_on_of_nodup_map hnd hg hf0 (joinPath_injective _ h))
      show (match readFile (writeFile
          (handle_sourceit_command crate_name files base_path timestamp fs).1
          (joinPath (joinPath base_path ("source_crate_" ++ crate_name ++ "_" ++ timestamp))
            f0.path) newContent)
          (joinPath (joinPath base_path ("source_crate_" ++ crate_name ++ "_" ++ timestamp))
            g.path) with
        | none => some (Mismatch.mk g.path MismatchKind.missing)
        | some c => if c = g.content then none
            else some (Mismatch.mk g.path MismatchKind.contentDivergence)) = none
      simp only [writeFile, readFile, if_neg hpne]
      rw [h2 g hg]
      simp

/-- C4 counterexample: as universally stated the claim fails, because a
collection may embed a file named SOURCE_CHECKSUM.txt; extraction succeeds
but the sidecar overwrites it, so verification of the unmodified extracted
tree already reports a mismatch. -/
theorem c4_counterexample :
    (handle_sourceit_command "v" [⟨"SOURCE_CHECKSUM.txt", "world"⟩]
      "/base" "00000000_000000" []).2 =
      Except.ok "/base/source_crate_v_00000000_000000" ∧
    verify_extracted_files_content
      (handle_sourceit_command "v" [⟨"SOURCE_CHECKSUM.txt", "world"⟩]
        "/base" "00000000_000000" []).1
      "/base/source_crate_v_00000000_000000" [⟨"SOURCE_CHECKSUM.txt", "world"⟩] ≠ [] := by
  refine ⟨rfl, by decide⟩

/-- Witness instantiating c4_verification at the repository test scenario:
one file test.txt with original content, externally overwritten with
modified content. -/
theorem c4_verification_witness :
    ∃ ep, (handle_sourceit_command "test_modification" [⟨"test.txt", "Original content"⟩]
        "/tmp" "20250314_153045" []).2 = Except.ok ep ∧
      verify_extracted_files_content
        (handle_sourceit_command "test_modification" [⟨"test.txt", "Original content"⟩]
          "/tmp" "20250314_153045" []).1 ep [⟨"test.txt", "Original content"⟩] = [] ∧
      verify_extracted_files_content
        (writeFile (handle_sourceit_command "test_modification" [⟨"test.txt", "Original content"⟩]
          "/tmp" "20250314_153045" []).1
          (joinPath ep "test.txt") "Modified content") ep [⟨"test.txt", "Original content"⟩] =
        [⟨"test.txt", MismatchKind.contentDivergence⟩] :=
  c4_verification "test_modification" [⟨"test.txt", "Original content"⟩]
    "/tmp" "20250314_153045" [] (by decide) (by decide) (by decide) (by decide)
    ⟨"test.txt", "Original content"⟩ (by decide) "Modified content" (by decide)

/-! ## Claims C2 and C6: checksum determinism and sensitivity -/

theorem sourcedFile_pairs_inj : ∀ l1 l2 : List SourcedFile,
    l1.map (fun f => (f.path, f.content)) = l2.map (fun f => (f.path, f.content)) →
    l1 = l2 := by
  intro l1
  induction l1 with
  | nil =>
    intro l2 h
    cases l2 with
    | nil => rfl
    | cons g tl => simp at h
  | cons f tl ih =>
    intro l2 h
    cases l2 with
    | nil => simp at h
    | cons g tl2 =>
      obtain ⟨fp, fc⟩ := f
      obtain ⟨gp, gc⟩ := g
      simp only [List.map_cons, List.cons.injEq, Prod.mk.injEq] at h
      obtain ⟨⟨hp, hc⟩, ht⟩ := h
      rw [hp, hc, ih tl2 ht]

/-- C2: the checksum is a deterministic function of the ordered
(path, content) sequence: any two computations over collections presenting
the same ordered pairs, in particular two independent invocations on the
same collection, return the same 64-bit value.  Every invocation starts
from the fixed DefaultHasher initial state, so nothing else enters the
result. -/
theorem c2_checksum_deterministic (files1 files2 : List SourcedFile)
    (h : files1.map (fun f => (f.path, f.content)) =
      files2.map (fun f => (f.path, f.content))) :
    calculate_checksum files1 = calculate_checksum files2 := by
  rw [sourcedFile_pairs_inj files1 files2 h]

/-- Witness instantiating c2_checksum_deterministic on two structurally
equal collections. -/
theorem c2_checksum_deterministic_witness :
    calculate_checksum [⟨"file1.rs", "content1"⟩, ⟨"file2.rs", "content2"⟩] =
      calculate_checksum [⟨"file1.rs", "content1"⟩, ⟨"file2.rs", "content2"⟩] :=
  c2_checksum_deterministic
    [⟨"file1.rs", "content1"⟩, ⟨"file2.rs", "content2"⟩]
    [⟨"file1.rs", "content1"⟩, ⟨"file2.rs", "content2"⟩] rfl

theorem char_toNat_lt (c : Char) : c.toNat < 1114112 := by
  rcases c.valid with h | ⟨_h1, h2⟩
  · exact lt_trans h (by norm_num)
  · exact h2

theorem utf8Bytes_ne_nil (v : Nat) : utf8Bytes v ≠ [] := by
  unfold utf8Bytes
  split_ifs <;> simp

theorem utf8Bytes_lt_255 (v : Nat) (hv : v < 1114112) :
    ∀ b ∈ utf8Bytes v, b < 255 := by
  intro b hb
  unfold utf8Bytes at hb
  split_ifs at hb <;>
    simp only [List.mem_cons, List.mem_singleton, List.not_mem_nil, or_false] at hb <;>
    omega

theorem utf8Bytes_head_length (v1 v2 : Nat) (h1 : v1 < 1114112) (h2 : v2 < 1114112)
    (hh : (utf8Bytes v1).head? = (utf8Bytes v2).head?) :
    (utf8Bytes v1).length = (utf8Bytes v2).length := by
  unfold utf8Bytes at hh ⊢
  split_ifs at hh ⊢ <;> simp_all <;> omega

theorem utf8Bytes_inj (v1 v2 : Nat) (h1 : v1 < 1114112) (h2 : v2 < 1114112)
    (h : utf8Bytes v1 = utf8Bytes v2) : v1 = v2 := by
  unfold utf8Bytes at h
  split_ifs at h <;> simp_all <;> omega

theorem utf8_flatten_inj : ∀ cs1 cs2 : List Char,
    (cs1.map (fun c => utf8Bytes c.toNat)).flatten =
      (cs2.map (fun c => utf8Bytes c.toNat)).flatten → cs1 = cs2 := by
  intro cs1
  induction cs1 with
  | nil =>
    intro cs2 h
    cases cs2 with
    | nil => rfl
    | cons c tl =>
      exfalso
      simp only [List.map_nil, List.flatten_nil, List.map_cons, List.flatten_cons] at h
      cases hu : utf8Bytes c.toNat with
      | nil => exact utf8Bytes_ne_nil c.toNat hu
      | cons b bs => rw [hu] at h; simp at h
  | cons c1 tl1 ih =>
    intro cs2 h
    cases cs2 with
    | nil =>
      exfalso
      simp only [List.map_nil, List.flatten_nil, List.map_cons, List.flatten_cons] at h
      cases hu : utf8Bytes c1.toNat with
      | nil => exact utf8Bytes_ne_nil c1.toNat hu
      | cons b bs => rw [hu] at h; simp at h
    | cons c2 tl2 =>
      simp only [List.map_cons, List.flatten_cons] at h
      have hh : (utf8Bytes c1.toNat).head? = (utf8Bytes c2.toNat).head? := by
        cases hu1 : utf8Bytes c1.toNat with
        | nil => exact absurd hu1 (utf8Bytes_ne_nil c1.toNat)
        | cons b1 bs1 =>
          cases hu2 : utf8Bytes c2.toNat with
          | nil => exact absurd hu2 (utf8Bytes_ne_nil c2.toNat)
          | cons b2 bs2 =>
            rw [hu1, hu2] at h
            simp only [List.cons_append, List.cons.injEq] at h
            rw [h.1]
            rfl
      have hlen := utf8Bytes_head_length c1.toNat c2.toNat
        (char_toNat_lt c1) (char_toNat_lt c2) hh
      obtain ⟨henc, hrest⟩ := List.append_inj h hlen
      have hc : c1 = c2 :=
        Char.ext (UInt32.ext (utf8Bytes_inj c1.toNat c2.toNat
          (char_toNat_lt c1) (char_toNat_lt c2) henc))
      rw [hc, ih tl2 hrest]

theorem strBytes_inj (s1 s2 : String) (h : strBytes s1 = strBytes s2) : s1 = s2 :=
  String.ext (utf8_flatten_inj s1.data s2.data h)

theorem strBytes_no_255 (s : String) : 255 ∉ strBytes s := by
  intro h
  simp only [strBytes, List.mem_flatten, List.mem_map] at h
  obtain ⟨l, ⟨c, _hc, rfl⟩, hl⟩ := h
  exact absurd (utf8Bytes_lt_255 c.toNat (char_toNat_lt c) 255 hl) (by omega)

theorem sep_split : ∀ a1 a2 r1 r2 : List Nat,
    255 ∉ a1 → 255 ∉ a2 → a1 ++ 255 :: r1 = a2 ++ 255 :: r2 →
    a1 = a2 ∧ r1 = r2 := by
  intro a1
  induction a1 with
  | nil =>
    intro a2 r1 r2 _h1 h2 h
    cases a2 with
    | nil => simpa using h
    | cons b tl =>
      simp only [List.nil_append, List.cons_append, List.cons.injEq] at h
      exact absurd (List.mem_cons.mpr (Or.inl h.1)) h2
  | cons b tl ih =>
    intro a2 r1 r2 h1 h2 h
    cases a2 with
    | nil =>
      simp only [List.nil_append, List.cons_append, List.cons.injEq] at h
      exact absurd (List.mem_cons.mpr (Or.inl h.1.symm)) h1
    | cons b2 tl2 =>
      simp only [List.cons_append, List.cons.injEq] at h
      obtain ⟨hb, ht⟩ := h
      obtain ⟨hA, hR⟩ := ih tl2 r1 r2
        (fun hm => h1 (List.mem_cons_of_mem _ hm))
        (fun hm => h2 (List.mem_cons_of_mem _ hm)) ht
      exact ⟨by rw [hb, hA], hR⟩

theorem sipStream_inj : ∀ l1 l2 : List SourcedFile,
    sipStream l1 = sipStream l2 → l1 = l2 := by
  intro l1
  induction l1 with
  | nil =>
    intro l2 h
    cases l2 with
    | nil => rfl
    | cons g tl =>
      exfalso
      simp only [sipStream, List.map_nil, List.flatten_nil, List.map_cons,
        List.flatten_cons, strHashBytes] at h
      simp at h
  | cons f1 tl1 ih =>
    intro l2 h
    cases l2 with
    | nil =>
      exfalso
      simp only [sipStream, List.map_nil, List.flatten_nil, List.map_cons,
        List.flatten_cons, strHashBytes] at h
      simp at h
    | cons f2 tl2 =>
      simp only [sipStream, List.map_cons, List.flatten_cons, strHashBytes,
        List.append_assoc, List.singleton_append] at h
      obtain ⟨hp, hrest⟩ := sep_split _ _ _ _
        (strBytes_no_255 f1.path) (strBytes_no_255 f2.path) h
      simp only [List.append_eq, List.append_assoc, List.singleton_append] at hrest
      obtain ⟨hc, hF⟩ := sep_split _ _ _ _
        (strBytes_no_255 f1.content) (strBytes_no_255 f2.content) hrest
      have hfe : f1 = f2 := by
        obtain ⟨p1, c1⟩ := f1
        obtain ⟨p2, c2⟩ := f2
        simp only at hp hc
        rw [strBytes_inj _ _ hp, strBytes_inj _ _ hc]
      have hs : ∀ tl : List SourcedFile,
          sipStream tl =
            (tl.map (fun f =>
              strBytes f.path ++ 255 :: (strBytes f.content ++ [255]))).flatten := by
        intro tl
        simp only [sipStream, strHashBytes, List.append_assoc, List.singleton_append]
      have htl : tl1 = tl2 := ih tl2 (by rw [hs tl1, hs tl2]; exact hF)
      rw [hfe, htl]

/-- C6 (amended): reordering two distinct files, or changing any single
file's path or content string, changes the byte stream that
calculate_checksum feeds to the SipHash accumulator: distinct ordered
collections always produce distinct hasher inputs.  The folded 64-bit
output itself cannot be injective (see the counterexample), which is why
the full claim fails at the checksum level while holding at the stream
level. -/
theorem c6_stream_faithful (l1 l2 : List SourcedFile) (hne : l1 ≠ l2) :
    sipStream l1 ≠ sipStream l2 :=
  fun h => hne (sipStream_inj l1 l2 h)

/-- Witness instantiating c6_stream_faithful on a two-file collection and
its swap. -/
theorem c6_stream_faithful_witness :
    sipStream [⟨"a", "b"⟩, ⟨"c", "d"⟩] ≠ sipStream [⟨"c", "d"⟩, ⟨"a", "b"⟩] :=
  c6_stream_faithful [⟨"a", "b"⟩, ⟨"c", "d"⟩] [⟨"c", "d"⟩, ⟨"a", "b"⟩] (by decide)

theorem wrap64_lt (x : Nat) : wrap64 x < 2 ^ 64 := Nat.mod_lt x (by norm_num)

theorem sipFinish_lt (s : SipState) (len : Nat) (tail : List Nat) :
    sipFinish s len tail < 2 ^ 64 := wrap64_lt _

theorem calculate_checksum_lt (files : List SourcedFile) :
    calculate_checksum files < 2 ^ 64 := sipFinish_lt _ _ _

/-- C6 counterexample: the claim that changing a single file's content
always changes the checksum is false: the checksum has only 2 ^ 64
possible values while contents range over infinitely many strings, so two
single-file collections with path a and distinct contents collide.  The
witnesses exist by pigeonhole; no concrete pair is exhibited, as finding
one amounts to finding a SipHash collision. -/
theorem c6_counterexample :
    ∃ c1 c2 : String, c1 ≠ c2 ∧
      calculate_checksum [⟨"a", c1⟩] = calculate_checksum [⟨"a", c2⟩] := by
  obtain ⟨n1, n2, hne, heq⟩ :=
    Finite.exists_ne_map_eq_of_infinite
      (fun n : Nat =>
        (⟨calculate_checksum [⟨"a", String.mk (List.replicate n 'a')⟩],
          calculate_checksum_lt _⟩ : Fin (2 ^ 64)))
  refine ⟨String.mk (List.replicate n1 'a'), String.mk (List.replicate n2 'a'), ?_, ?_⟩
  · intro h
    apply hne
    have := congrArg (fun s : String => s.data.length) h
    simpa using this
  · exact congrArg Fin.val heq
